import Mathlib

/-!
Shallow embedding of `src/main.cpp` (cpp-ascii-image): an image → ASCII-art
command-line converter. Pure pipeline functions are translated to Lean
functions; `float` arithmetic is modelled by exact rationals, with C `float`
to `int` casts as truncation toward zero and `std::round` as rounding half
away from zero. Image decoding (stb_image), `atoi`/`stof` and output-file
opening are external collaborators and are passed in as function parameters.
-/

namespace AsciiImage

/-- C++ `std::clamp` on integers: `v < lo ? lo : (hi < v ? hi : v)`. -/
def cclamp (v lo hi : ℤ) : ℤ :=
  if v < lo then lo else if hi < v then hi else v

/-- C cast from floating point to `int`: truncation toward zero, on exact rationals. -/
def ctrunc (q : ℚ) : ℤ :=
  if q < 0 then -⌊-q⌋ else ⌊q⌋

/-- C `std::round`: rounding half away from zero, on exact rationals. -/
def cround (q : ℚ) : ℤ :=
  if q < 0 then -⌊-q + 1/2⌋ else ⌊q + 1/2⌋

/-- The nearest-neighbor source index of `resize_nn` (main.cpp lines 88-94):
`clamp(int((i + 0.5f) * s / d), 0, s - 1)` for source extent `s`, destination
extent `d` and destination coordinate `i`.  Used for both axes. -/
def src_index (s d i : ℕ) : ℤ :=
  cclamp (ctrunc (((i : ℚ) + 1/2) * (s : ℚ) / (d : ℚ))) 0 ((s : ℤ) - 1)

/-- `resize_nn` (main.cpp lines 84-98): nearest-neighbor resize of a
row-major grayscale buffer from `sw × sh` to `dw × dh`.  The C buffer read
`src[sy * sw + sx]` is modelled with `List.getD · 0`. -/
def resize_nn (src : List ℕ) (sw sh dw dh : ℕ) : List ℕ :=
  (List.range dh).map (fun y =>
    let sy := (src_index sh dh y).toNat
    (List.range dw).map (fun x =>
      let sx := (src_index sw dw x).toNat
      src.getD (sy * sw + sx) 0)) |>.flatten

/-- `map_intensity_to_char` (main.cpp lines 100-109). `v` is a byte in
`[0,255]`; an out-of-range list access (possible only for an empty charset,
which `main` never passes) is modelled with `List.getD · ' '`. -/
def map_intensity_to_char (v : ℕ) (charset : List Char) (invert : Bool) : Char :=
  let n : ℕ := charset.length
  if n = 1 then charset.getD 0 ' '
  else
    let t : ℚ := (v : ℚ) / 255
    let t : ℚ := if invert then 1 - t else t
    let idx := cclamp (cround (t * ((n : ℚ) - 1))) 0 ((n : ℤ) - 1)
    charset.getD idx.toNat ' '

/-- The `Options` struct (main.cpp lines 16-23). -/
structure Options where
  inputPath : String
  outputPath : String
  width : ℤ
  charAspect : ℚ
  invert : Bool
  charset : List Char
deriving DecidableEq

/-- Default-constructed `Options` (main.cpp lines 16-23). -/
def defaultOptions : Options :=
  { inputPath := ""
    outputPath := ""
    width := 120
    charAspect := 1/2
    invert := false
    charset := "@%#*+=-:. ".toList }

/-- The option-processing loop of `parse_args` (main.cpp lines 44-79), over
the argument list after the positional input path.  `none` models
`parse_args` returning `false` (help request, missing value, empty charset,
or unknown option — the C code prints a diagnostic in each case and returns
`false` without distinguishing them).  `atoi` and `stof` are the C library
number parsers, treated as external collaborators. -/
def parse_loop (atoi : String → ℤ) (stof : String → ℚ) :
    List String → Options → Option Options
  | [], o => some o
  | arg :: rest, o =>
    if arg = "-w" ∨ arg = "--width" then
      match rest with
      | [] => none
      | v :: r => parse_loop atoi stof r { o with width := max 1 (atoi v) }
    else if arg = "-a" ∨ arg = "--aspect" then
      match rest with
      | [] => none
      | v :: r => parse_loop atoi stof r { o with charAspect := max (1/20) (stof v) }
    else if arg = "-c" ∨ arg = "--charset" then
      match rest with
      | [] => none
      | v :: r =>
        if v.toList = [] then none
        else parse_loop atoi stof r { o with charset := v.toList }
    else if arg = "-i" ∨ arg = "--invert" then
      parse_loop atoi stof rest { o with invert := true }
    else if arg = "-o" ∨ arg = "--output" then
      match rest with
      | [] => none
      | v :: r => parse_loop atoi stof r { o with outputPath := v }
    else if arg = "-h" ∨ arg = "--help" then none
    else none

/-- `parse_args` (main.cpp lines 39-81).  `args` is `argv` without the
program name, so `args = []` is the `argc < 2` usage case. -/
def parse_args (atoi : String → ℤ) (stof : String → ℚ)
    (args : List String) : Option Options :=
  match args with
  | [] => none
  | p :: rest => parse_loop atoi stof rest { defaultOptions with inputPath := p }

/-- The target row count computed in `main` (main.cpp lines 126-131):
`outH = max(1, round(h * (outW / w) / max(0.01f, charAspect)))`. -/
def out_height (w h outW : ℕ) (charAspect : ℚ) : ℕ :=
  let scale : ℚ := (outW : ℚ) / (w : ℚ)
  (max 1 (cround ((h : ℚ) * scale / max (1/100) charAspect))).toNat

/-- One output row of the emission loop (main.cpp lines 149-152): the glyphs
for row `y` of the resized buffer. -/
def ascii_row (resized : List ℕ) (outW : ℕ) (charset : List Char)
    (invert : Bool) (y : ℕ) : List Char :=
  (List.range outW).map fun x =>
    map_intensity_to_char (resized.getD (y * outW + x) 0) charset invert

/-- All output rows, in order, as produced by the emission loop of `main`. -/
def ascii_rows (pixels : List ℕ) (w h : ℕ) (opt : Options) : List (List Char) :=
  let outW := (max 1 opt.width).toNat
  let outH := out_height w h outW opt.charAspect
  let resized := resize_nn pixels w h outW outH
  (List.range outH).map (ascii_row resized outW opt.charset opt.invert)

/-- The byte sequence `main` writes to the data stream (stdout or the output
file) on the success path (main.cpp lines 126-154): for each row, `outW`
glyphs followed by a newline. -/
def render (pixels : List ℕ) (w h : ℕ) (opt : Options) : List Char :=
  let outW := (max 1 opt.width).toNat
  let outH := out_height w h outW opt.charAspect
  let resized := resize_nn pixels w h outW outH
  ((List.range outH).map fun y =>
    ascii_row resized outW opt.charset opt.invert y ++ ['\n']).flatten

/-- A decoded image as returned by the external decoder `stbi_load` with one
requested channel: a row-major grayscale byte buffer. -/
structure Image where
  pixels : List ℕ
  width : ℕ
  height : ℕ

/-- A message written to the diagnostic stream (stderr) by `main` itself
(decode failure, output-open failure, and the file-written confirmation).
The stderr output of `parse_args` is not modelled. -/
inductive Diag where
  | loadFailed (path : String)
  | openFailed (path : String)
  | wrote (path : String)
deriving DecidableEq

/-- Result of one invocation: the process exit status, the bytes written to
the data stream, and the diagnostic-stream messages of `main`. -/
structure MainResult where
  exitCode : ℤ
  dataOut : List Char
  diag : List Diag
deriving DecidableEq

/-- `main` (main.cpp lines 111-160).  `decode` models `stbi_load` (`none` =
decode failure) and `openOk` models whether opening the output file
succeeds; both are external collaborators.  On a failed `parse_args` the
exit status is `argc < 2 ? 1 : 0`, i.e. 1 exactly when `args = []`. -/
def main_run (atoi : String → ℤ) (stof : String → ℚ)
    (decode : String → Option Image) (openOk : String → Bool)
    (args : List String) : MainResult :=
  match parse_args atoi stof args with
  | none => ⟨if args = [] then 1 else 0, [], []⟩
  | some opt =>
    match decode opt.inputPath with
    | none => ⟨1, [], [.loadFailed opt.inputPath]⟩
    | some img =>
      if opt.outputPath = "" then
        ⟨0, render img.pixels img.width img.height opt, []⟩
      else if openOk opt.outputPath then
        ⟨0, render img.pixels img.width img.height opt, [.wrote opt.outputPath]⟩
      else
        ⟨1, [], [.openFailed opt.outputPath]⟩

/-- The configuration of the spec's end-to-end scenario: `targetCols = 2`,
aspect 1 (which makes `targetRows = 2` for a 2x2 source), ramp `"@ "`, no
inversion, output to stdout. -/
def scenario_options : Options :=
  { inputPath := "img"
    outputPath := ""
    width := 2
    charAspect := 1
    invert := false
    charset := "@ ".toList }

/-- The spec's center-of-cell sampling formula, for comparison with
`src_index`: `clamp(round((i + 0.5) * s / d - 0.5), 0, s - 1)`, with
`round` the usual round-half-up on exact rationals. -/
def spec_src_index (s d i : ℕ) : ℤ :=
  cclamp (round (((i : ℚ) + 1/2) * (s : ℚ) / (d : ℚ) - 1/2)) 0 ((s : ℤ) - 1)

/-- The target row count as the spec words it, for comparison with
`out_height`: `round(height * (targetCols / width) / charAspect)` floored
to at least 1, the division being by the aspect factor itself. -/
def spec_target_rows (w h cols : ℕ) (a : ℚ) : ℕ :=
  (max 1 (round ((h : ℚ) * ((cols : ℚ) / (w : ℚ)) / a))).toNat

/-! ### Helper lemmas -/

theorem ctrunc_of_nonneg {q : ℚ} (h : 0 ≤ q) : ctrunc q = ⌊q⌋ := by
  simp [ctrunc, not_lt.2 h]

theorem cround_of_nonneg {q : ℚ} (h : 0 ≤ q) : cround q = round q := by
  simp [cround, not_lt.2 h, round_eq]

theorem cclamp_le (v lo hi : ℤ) (h : lo ≤ hi) : cclamp v lo hi ≤ hi := by
  simp only [cclamp]
  split_ifs <;> omega

theorem cclamp_ge (v lo hi : ℤ) (h : lo ≤ hi) : lo ≤ cclamp v lo hi := by
  simp only [cclamp]
  split_ifs <;> omega

theorem src_index_eq_spec (s d i : ℕ) : src_index s d i = spec_src_index s d i := by
  have hv : (0 : ℚ) ≤ ((i : ℚ) + 1/2) * (s : ℚ) / (d : ℚ) := by positivity
  simp only [src_index, spec_src_index, ctrunc_of_nonneg hv, round_eq]
  norm_num

theorem src_index_nonneg (s d i : ℕ) (hs : 1 ≤ s) : 0 ≤ src_index s d i :=
  cclamp_ge _ _ _ (by omega)

theorem src_index_lt (s d i : ℕ) (hs : 1 ≤ s) : src_index s d i < (s : ℤ) := by
  have := cclamp_le (ctrunc (((i : ℚ) + 1/2) * (s : ℚ) / (d : ℚ)))
    0 ((s : ℤ) - 1) (by omega)
  simp only [src_index]
  omega

theorem src_index_toNat_lt (s d i : ℕ) (hs : 1 ≤ s) : (src_index s d i).toNat < s := by
  have h1 := src_index_nonneg s d i hs
  have h2 := src_index_lt s d i hs
  omega

theorem out_height_pos (w h outW : ℕ) (a : ℚ) : 1 ≤ out_height w h outW a := by
  simp only [out_height]
  have := le_max_left (1 : ℤ)
    (cround ((h : ℚ) * ((outW : ℚ) / (w : ℚ)) / max (1/100) a))
  omega

/-- Every option record `parse_loop` can return satisfies the invariants
that hold of its starting record: aspect at least `1/100` (the `-a` branch
clamps to `max(0.05, ·)`) and a non-empty charset (the `-c` branch rejects
an empty value). -/
theorem parse_loop_pres (atoi : String → ℤ) (stof : String → ℚ) :
    ∀ (args : List String) (o r : Options),
      parse_loop atoi stof args o = some r →
      (1/100 ≤ o.charAspect → 1/100 ≤ r.charAspect) ∧
      (o.charset ≠ [] → r.charset ≠ []) := by
  suffices H : ∀ (n : ℕ) (args : List String), args.length ≤ n →
      ∀ o r : Options, parse_loop atoi stof args o = some r →
        (1/100 ≤ o.charAspect → 1/100 ≤ r.charAspect) ∧
        (o.charset ≠ [] → r.charset ≠ []) by
    exact fun args => H args.length args le_rfl
  intro n
  induction n with
  | zero =>
    intro args hlen o r hp
    cases args with
    | nil =>
      simp only [parse_loop, Option.some.injEq] at hp
      subst hp
      exact ⟨id, id⟩
    | cons a rest => simp at hlen
  | succ n ih =>
    intro args hlen o r hp
    cases args with
    | nil =>
      simp only [parse_loop, Option.some.injEq] at hp
      subst hp
      exact ⟨id, id⟩
    | cons arg rest =>
      rw [parse_loop.eq_def] at hp
      simp only at hp
      simp only [List.length_cons, Nat.succ_le_succ_iff] at hlen
      split_ifs at hp with h1 h2 h3 h4 h5 h6
      · cases rest with
        | nil => simp at hp
        | cons v r2 =>
          have := ih r2 (by simp at hlen ⊢; omega) _ r hp
          simpa using this
      · cases rest with
        | nil => simp at hp
        | cons v r2 =>
          have := ih r2 (by simp at hlen ⊢; omega) _ r hp
          simp only at this
          refine ⟨fun _ => this.1 ?_, this.2⟩
          exact le_trans (by norm_num) (le_max_left (1/20) (stof v))
      · cases rest with
        | nil => simp at hp
        | cons v r2 =>
          by_cases hv : v.data = []
          · simp only [String.toList, if_pos hv] at hp
            simp at hp
          · simp only [String.toList, if_neg hv] at hp
            have := ih r2 (by simp at hlen ⊢; omega) _ r hp
            simp only at this
            exact ⟨this.1, fun _ => this.2 hv⟩
      · have := ih rest (by omega) _ r hp
        simpa using this
      · cases rest with
        | nil => simp at hp
        | cons v r2 =>
          have := ih r2 (by simp at hlen ⊢; omega) _ r hp
          simpa using this

/-! ### Claim theorems -/

/-- C2: for every `width ≥ 1`, `height ≥ 1`, `targetCols ≥ 1` and
`charAspect > 0`, the geometry computation produces `targetRows ≥ 1`, and
for every output cell `(x, y)` in range, the sampled source coordinates are
in bounds (`srcX < width`, `srcY < height`; both are nonnegative by
construction), so the row-major buffer read `srcY * width + srcX` is in
bounds of a `width * height` buffer. -/
theorem geometry_in_bounds (w h cols : ℕ) (a : ℚ)
    (hw : 1 ≤ w) (hh : 1 ≤ h) (hc : 1 ≤ cols) (ha : 0 < a) :
    1 ≤ out_height w h cols a ∧
    ∀ x y : ℕ, x < cols → y < out_height w h cols a →
      (src_index w cols x).toNat < w ∧
      (src_index h (out_height w h cols a) y).toNat < h ∧
      (src_index h (out_height w h cols a) y).toNat * w +
        (src_index w cols x).toNat < w * h := by
  refine ⟨out_height_pos w h cols a, fun x y _ _ => ?_⟩
  have hx := src_index_toNat_lt w cols x hw
  have hy := src_index_toNat_lt h (out_height w h cols a) y hh
  refine ⟨hx, hy, ?_⟩
  calc (src_index h (out_height w h cols a) y).toNat * w +
        (src_index w cols x).toNat
      < (src_index h (out_height w h cols a) y).toNat * w + w := by omega
    _ = ((src_index h (out_height w h cols a) y).toNat + 1) * w := by ring
    _ ≤ h * w := Nat.mul_le_mul_right w (by omega)
    _ = w * h := Nat.mul_comm h w

/-- Witness for C2 at `width = height = 2`, `targetCols = 2`,
`charAspect = 1/2`, cell `(1, 1)`. -/
theorem geometry_in_bounds_witness :
    1 ≤ (2 : ℕ) ∧ (0 : ℚ) < 1/2 ∧ (1 : ℕ) < 2 ∧ 1 < out_height 2 2 2 (1/2) ∧
    (1 ≤ out_height 2 2 2 (1/2) ∧
      (src_index 2 2 1).toNat < 2 ∧
      (src_index 2 (out_height 2 2 2 (1/2)) 1).toNat < 2 ∧
      (src_index 2 (out_height 2 2 2 (1/2)) 1).toNat * 2 +
        (src_index 2 2 1).toNat < 2 * 2) := by
  have hout : out_height 2 2 2 (1/2) = 4 := by
    norm_num [out_height, cround, max_def]
    decide
  refine ⟨by norm_num, by norm_num, by norm_num, by rw [hout]; norm_num, ?_⟩
  have := geometry_in_bounds 2 2 2 (1/2) (by norm_num) (by norm_num)
    (by norm_num) (by norm_num)
  exact ⟨this.1, this.2 1 1 (by norm_num) (by rw [hout]; norm_num)⟩

/-- C3: for in-range output coordinates, the code's truncation-based
nearest-neighbor source index `clamp(trunc((i+0.5)*s/d), 0, s-1)` coincides
with the spec's center-of-cell formulation
`clamp(round((i+0.5)*s/d - 0.5), 0, s-1)`, on the column axis and on the
row axis alike. -/
theorem src_sampling_matches_spec (w cols x h rows y : ℕ)
    (hw : 1 ≤ w) (hc : 1 ≤ cols) (hx : x < cols)
    (hh : 1 ≤ h) (hr : 1 ≤ rows) (hy : y < rows) :
    src_index w cols x = spec_src_index w cols x ∧
    src_index h rows y = spec_src_index h rows y :=
  ⟨src_index_eq_spec w cols x, src_index_eq_spec h rows y⟩

/-- Witness for C3 at `width = 3`, `targetCols = 2`, `x = 1`, `height = 5`,
`targetRows = 4`, `y = 2`. -/
theorem src_sampling_matches_spec_witness :
    1 ≤ (3 : ℕ) ∧ 1 ≤ (2 : ℕ) ∧ (1 : ℕ) < 2 ∧
    1 ≤ (5 : ℕ) ∧ 1 ≤ (4 : ℕ) ∧ (2 : ℕ) < 4 ∧
    (src_index 3 2 1 = spec_src_index 3 2 1 ∧
      src_index 5 4 2 = spec_src_index 5 4 2) :=
  ⟨by norm_num, by norm_num, by norm_num, by norm_num, by norm_num, by norm_num,
    src_sampling_matches_spec 3 2 1 5 4 2 (by norm_num) (by norm_num)
      (by norm_num) (by norm_num) (by norm_num) (by norm_num)⟩

/-- C4, counterexample: at `width = height = targetCols = 1` and
`charAspect = 1/200 > 0`, the code divides by `max(0.01, charAspect) = 0.01`
and yields 100 rows, while the claimed formula divides by `charAspect`
itself and yields 200 rows. -/
theorem out_height_claim_counterexample :
    out_height 1 1 1 (1/200) = 100 ∧ spec_target_rows 1 1 1 (1/200) = 200 ∧
    out_height 1 1 1 (1/200) ≠ spec_target_rows 1 1 1 (1/200) := by
  have h1 : out_height 1 1 1 (1/200) = 100 := by
    norm_num [out_height, cround, max_def]
    decide
  have h2 : spec_target_rows 1 1 1 (1/200) = 200 := by
    norm_num [spec_target_rows, round_eq, max_def]
    decide
  exact ⟨h1, h2, by rw [h1, h2]; norm_num⟩

/-- C4, amended: for `charAspect ≥ 0.01` (which holds on every run, since
the CLI clamps the aspect option to at least 0.05 and defaults it to 0.5),
the computed row count equals
`max(1, round(height * (targetCols / width) / charAspect))`. -/
theorem out_height_matches_spec (w h cols : ℕ) (a : ℚ)
    (hw : 1 ≤ w) (hh : 1 ≤ h) (hc : 1 ≤ cols) (ha : 1/100 ≤ a) :
    out_height w h cols a = spec_target_rows w h cols a := by
  have ha0 : (0 : ℚ) < a := lt_of_lt_of_le (by norm_num) ha
  have hq : (0 : ℚ) ≤ (h : ℚ) * ((cols : ℚ) / (w : ℚ)) / a := by positivity
  simp only [out_height, spec_target_rows, max_eq_right ha, cround_of_nonneg hq]

/-- Witness for the amended C4 at `width = height = 2`, `targetCols = 2`,
`charAspect = 1/2`. -/
theorem out_height_matches_spec_witness :
    1 ≤ (2 : ℕ) ∧ (1/100 : ℚ) ≤ 1/2 ∧
    out_height 2 2 2 (1/2) = spec_target_rows 2 2 2 (1/2) :=
  ⟨by norm_num, by norm_num,
    out_height_matches_spec 2 2 2 (1/2) (by norm_num) (by norm_num)
      (by norm_num) (by norm_num)⟩

/-- C4, evidence that every aspect value `parse_args` can deliver to `main`
satisfies the amended bound: the parsed aspect is clamped to at least
`0.05` and the default is `0.5`, so the `max(0.01, ·)` in `main` is
inert on every reachable configuration. -/
theorem parsed_aspect_ge (atoi : String → ℤ) (stof : String → ℚ)
    (args : List String) (opt : Options)
    (hp : parse_args atoi stof args = some opt) : 1/100 ≤ opt.charAspect := by
  cases args with
  | nil => simp [parse_args] at hp
  | cons p rest =>
    simp only [parse_args] at hp
    exact (parse_loop_pres atoi stof rest _ opt hp).1 (by norm_num [defaultOptions])

/-- If the (possibly inverted) normalized brightness is 0, the mapper picks
index 0. -/
theorem map_at_t_zero (v : ℕ) (cs : List Char) (inv : Bool)
    (hn : 2 ≤ cs.length)
    (ht : (if inv then 1 - (v : ℚ)/255 else (v : ℚ)/255) = 0) :
    map_intensity_to_char v cs inv = cs.getD 0 ' ' := by
  simp only [map_intensity_to_char, ht]
  rw [if_neg (by omega)]
  have h0 : cround (0 * ((cs.length : ℚ) - 1)) = 0 := by
    norm_num [cround]
  rw [h0]
  have hc : cclamp 0 0 ((cs.length : ℤ) - 1) = 0 := by
    simp only [cclamp]
    rw [if_neg (by omega), if_neg (by omega)]
  rw [hc]
  rfl

/-- If the (possibly inverted) normalized brightness is 1, the mapper picks
the last index. -/
theorem map_at_t_one (v : ℕ) (cs : List Char) (inv : Bool)
    (hn : 2 ≤ cs.length)
    (ht : (if inv then 1 - (v : ℚ)/255 else (v : ℚ)/255) = 1) :
    map_intensity_to_char v cs inv = cs.getD (cs.length - 1) ' ' := by
  simp only [map_intensity_to_char, ht]
  rw [if_neg (by omega)]
  have hcast : (cs.length : ℚ) - 1 = ((cs.length - 1 : ℕ) : ℚ) := by
    have : (1 : ℕ) ≤ cs.length := by omega
    push_cast [this]
    ring
  have h1 : cround (1 * ((cs.length : ℚ) - 1)) = ((cs.length - 1 : ℕ) : ℤ) := by
    rw [one_mul, hcast, cround_of_nonneg (by positivity)]
    exact_mod_cast round_natCast (cs.length - 1)
  rw [h1]
  have hc : cclamp ((cs.length - 1 : ℕ) : ℤ) 0 ((cs.length : ℤ) - 1) =
      ((cs.length - 1 : ℕ) : ℤ) := by
    simp only [cclamp]
    rw [if_neg (by omega), if_neg (by omega)]
  rw [hc]
  simp

/-- First and last characters of a non-empty list, via `getD`. -/
theorem getD_zero_cons (c : Char) (rest : List Char) :
    (c :: rest).getD 0 ' ' = c := rfl

/-- The `getD` at the last index of a non-empty list is its `getLast`. -/
theorem getD_last_cons (c : Char) (rest : List Char) :
    (c :: rest).getD ((c :: rest).length - 1) ' ' =
      (c :: rest).getLast (List.cons_ne_nil c rest) := by
  rw [List.getLast_eq_getElem, List.getD_eq_getElem]

/-- C5: mapping luminance 0 without inversion yields the ramp's first
character; luminance 255 without inversion yields its last; with inversion
the two endpoints swap. -/
theorem glyph_endpoints (c : Char) (rest : List Char) :
    map_intensity_to_char 0 (c :: rest) false = c ∧
    map_intensity_to_char 255 (c :: rest) false =
      (c :: rest).getLast (List.cons_ne_nil c rest) ∧
    map_intensity_to_char 0 (c :: rest) true =
      (c :: rest).getLast (List.cons_ne_nil c rest) ∧
    map_intensity_to_char 255 (c :: rest) true = c := by
  cases rest with
  | nil =>
    refine ⟨?_, ?_, ?_, ?_⟩ <;> simp [map_intensity_to_char]
  | cons c2 rest2 =>
    have hn : 2 ≤ (c :: c2 :: rest2).length := by simp
    refine ⟨?_, ?_, ?_, ?_⟩
    · rw [map_at_t_zero 0 _ false hn (by norm_num)]
      rfl
    · rw [map_at_t_one 255 _ false hn (by norm_num), getD_last_cons]
    · rw [map_at_t_one 0 _ true hn (by norm_num), getD_last_cons]
    · rw [map_at_t_zero 255 _ true hn (by norm_num)]
      rfl

/-- C6: a ramp of length exactly 1 maps every luminance value, inverted or
not, to its single character. -/
theorem glyph_singleton (v : ℕ) (c : Char) (inv : Bool) :
    map_intensity_to_char v [c] inv = c := by
  simp [map_intensity_to_char]

/-- C10: for a non-empty ramp and a byte `v`, mapping `v` inverted equals
mapping `255 - v` uninverted: inversion is exactly reflection of the
luminance scale. -/
theorem glyph_invert_reflect (v : ℕ) (cs : List Char)
    (hv : v ≤ 255) (hcs : cs ≠ []) :
    map_intensity_to_char v cs true = map_intensity_to_char (255 - v) cs false := by
  have key : ((255 - v : ℕ) : ℚ) / 255 = 1 - (v : ℚ) / 255 := by
    rw [Nat.cast_sub hv]
    ring
  simp only [map_intensity_to_char, if_true, if_false, key]
  simp

/-- Witness for C10 at `v = 100` and the default ramp. -/
theorem glyph_invert_reflect_witness :
    (100 : ℕ) ≤ 255 ∧ "@%#*+=-:. ".toList ≠ [] ∧
    map_intensity_to_char 100 "@%#*+=-:. ".toList true =
      map_intensity_to_char 155 "@%#*+=-:. ".toList false :=
  ⟨by norm_num, by simp,
    glyph_invert_reflect 100 "@%#*+=-:. ".toList (by norm_num) (by simp)⟩

/-- The data stream of a successful run is the concatenation of the output
rows, each followed by one newline. -/
theorem render_eq_rows (p : List ℕ) (w h : ℕ) (o : Options) :
    render p w h o = ((ascii_rows p w h o).map (· ++ ['\n'])).flatten := by
  simp [render, ascii_rows, List.map_map]
  rfl

/-- C7: the end-to-end scenario. For the 2x2 one-channel image with
row-major pixels `[0, 255, 255, 0]`, `targetCols = 2`, aspect 1 (so
`targetRows = 2`), ramp `"@ "`, no inversion, the pipeline produces exactly
the rows `"@ "` then `" @"`. -/
theorem end_to_end_2x2 :
    out_height 2 2 (max 1 scenario_options.width).toNat scenario_options.charAspect = 2 ∧
    ascii_rows [0, 255, 255, 0] 2 2 scenario_options = ["@ ".toList, " @".toList] ∧
    render [0, 255, 255, 0] 2 2 scenario_options = "@ \n @\n".toList := by
  have hW : (max 1 scenario_options.width).toNat = 2 := rfl
  have hout : out_height 2 2 2 (1 : ℚ) = 2 := by
    norm_num [out_height, cround, max_def]
    decide
  have h00 : src_index 2 2 0 = 0 := by
    norm_num [src_index, ctrunc, cclamp]
  have h01 : src_index 2 2 1 = 1 := by
    norm_num [src_index, ctrunc, cclamp]
  have hr2 : List.range 2 = [0, 1] := rfl
  have hresize : resize_nn [0, 255, 255, 0] 2 2 2 2 = [0, 255, 255, 0] := by
    simp [resize_nn, hr2, h00, h01]
  have hm0 : map_intensity_to_char 0 ['@', ' '] false = '@' := by
    norm_num [map_intensity_to_char, cround, cclamp]
  have hm255 : map_intensity_to_char 255 ['@', ' '] false = ' ' := by
    norm_num [map_intensity_to_char, cround, cclamp]
  have hrows : ascii_rows [0, 255, 255, 0] 2 2 scenario_options =
      ["@ ".toList, " @".toList] := by
    simp only [ascii_rows, scenario_options, hW, hout, hresize, hr2]
    simp [ascii_row, hr2, hout, hresize, hm0, hm255]
  refine ⟨by rw [hW]; exact hout, hrows, ?_⟩
  rw [render_eq_rows, hrows]
  rfl

/-- C8: on every successful run (arguments parse, the image decodes, and
the output file — when one is requested — opens), the data stream is
exactly the `targetRows` rows, each exactly `targetCols` glyphs followed by
one newline, with nothing before or after; the file-written confirmation
appears only on the diagnostic stream. -/
theorem output_format (atoi : String → ℤ) (stof : String → ℚ)
    (decode : String → Option Image) (openOk : String → Bool)
    (args : List String) (opt : Options) (img : Image)
    (hp : parse_args atoi stof args = some opt)
    (hd : decode opt.inputPath = some img)
    (ho : opt.outputPath ≠ "" → openOk opt.outputPath = true) :
    (main_run atoi stof decode openOk args).exitCode = 0 ∧
    (main_run atoi stof decode openOk args).dataOut =
      ((ascii_rows img.pixels img.width img.height opt).map (· ++ ['\n'])).flatten ∧
    (ascii_rows img.pixels img.width img.height opt).length =
      out_height img.width img.height (max 1 opt.width).toNat opt.charAspect ∧
    (∀ l ∈ ascii_rows img.pixels img.width img.height opt,
      l.length = (max 1 opt.width).toNat) ∧
    (main_run atoi stof decode openOk args).diag =
      (if opt.outputPath = "" then [] else [Diag.wrote opt.outputPath]) := by
  have hrun : main_run atoi stof decode openOk args =
      (if opt.outputPath = "" then
        ⟨0, render img.pixels img.width img.height opt, []⟩
      else if openOk opt.outputPath then
        ⟨0, render img.pixels img.width img.height opt, [.wrote opt.outputPath]⟩
      else ⟨1, [], [.openFailed opt.outputPath]⟩) := by
    simp [main_run, hp, hd]
  have hlen : (ascii_rows img.pixels img.width img.height opt).length =
      out_height img.width img.height (max 1 opt.width).toNat opt.charAspect := by
    simp [ascii_rows]
  have helem : ∀ l ∈ ascii_rows img.pixels img.width img.height opt,
      l.length = (max 1 opt.width).toNat := by
    intro l hl
    simp only [ascii_rows, List.mem_map] at hl
    obtain ⟨y, _, rfl⟩ := hl
    simp [ascii_row]
  by_cases hop : opt.outputPath = ""
  · rw [hrun, if_pos hop]
    exact ⟨rfl, render_eq_rows .., hlen, helem, by rw [if_pos hop]⟩
  · rw [hrun, if_neg hop, if_pos (ho hop)]
    exact ⟨rfl, render_eq_rows .., hlen, helem, by rw [if_neg hop]⟩

/-- Witness for C8: a run on a 1x1 image with default options. -/
theorem output_format_witness :
    (main_run (fun _ => 0) (fun _ => 0) (fun _ => some ⟨[0], 1, 1⟩) (fun _ => true)
        ["img"]).exitCode = 0 ∧
    (main_run (fun _ => 0) (fun _ => 0) (fun _ => some ⟨[0], 1, 1⟩) (fun _ => true)
        ["img"]).dataOut =
      ((ascii_rows [0] 1 1 { defaultOptions with inputPath := "img" }).map
        (· ++ ['\n'])).flatten ∧
    (ascii_rows [0] 1 1 { defaultOptions with inputPath := "img" }).length =
      out_height 1 1 (max 1 (120 : ℤ)).toNat (1/2) ∧
    (∀ l ∈ ascii_rows [0] 1 1 { defaultOptions with inputPath := "img" },
      l.length = (max 1 (120 : ℤ)).toNat) ∧
    (main_run (fun _ => 0) (fun _ => 0) (fun _ => some ⟨[0], 1, 1⟩) (fun _ => true)
        ["img"]).diag = [] := by
  have h := output_format (fun _ => 0) (fun _ => 0)
    (fun _ => some ⟨[0], 1, 1⟩) (fun _ => true) ["img"]
    { defaultOptions with inputPath := "img" } ⟨[0], 1, 1⟩
    rfl rfl (fun hne => absurd rfl hne)
  exact ⟨h.1, h.2.1, h.2.2.1, h.2.2.2.1, h.2.2.2.2⟩

/-- C9: an empty glyph ramp can only arise from `-c ""`, which `parse_args`
rejects: every option record that reaches the pipeline has a non-empty
charset, and on a rejected parse the run's outcome is independent of the
decoder (no pixel is consulted) and writes nothing to the data stream. -/
theorem empty_ramp_rejected (atoi : String → ℤ) (stof : String → ℚ)
    (args : List String) :
    (∀ opt : Options, parse_args atoi stof args = some opt → opt.charset ≠ []) ∧
    (parse_args atoi stof args = none →
      ∀ (d₁ d₂ : String → Option Image) (o₁ o₂ : String → Bool),
        main_run atoi stof d₁ o₁ args = main_run atoi stof d₂ o₂ args ∧
        (main_run atoi stof d₁ o₁ args).dataOut = []) := by
  constructor
  · intro opt hp
    cases args with
    | nil => simp [parse_args] at hp
    | cons p rest =>
      simp only [parse_args] at hp
      exact (parse_loop_pres atoi stof rest _ opt hp).2 (by simp [defaultOptions])
  · intro hnone d₁ d₂ o₁ o₂
    constructor <;> simp [main_run, hnone]

/-- Witness for C9: the invocation `prog img.png -c ""` is rejected with an
empty data stream, and a parse of `prog img.png -c "x"` yields a non-empty
ramp. -/
theorem empty_ramp_rejected_witness :
    (main_run (fun _ => 0) (fun _ => 0) (fun _ => some ⟨[0], 1, 1⟩) (fun _ => true)
        ["img.png", "-c", ""]).dataOut = [] ∧
    ({ defaultOptions with inputPath := "img.png", charset := "x".toList } :
      Options).charset ≠ [] := by
  constructor
  · exact ((empty_ramp_rejected (fun _ => 0) (fun _ => 0) ["img.png", "-c", ""]).2 rfl
      (fun _ => some ⟨[0], 1, 1⟩) (fun _ => some ⟨[0], 1, 1⟩)
      (fun _ => true) (fun _ => true)).2
  · exact (empty_ramp_rejected (fun _ => 0) (fun _ => 0) ["img.png", "-c", "x"]).1
      { defaultOptions with inputPath := "img.png", charset := "x".toList } rfl

/-- C1, failing inputs: `main` returns `argc < 2 ? 1 : 0` when `parse_args`
fails, so an unknown option, a missing option value, and an empty charset —
all argument errors with `argc ≥ 2` — exit with status 0, not the claimed 1
(each after printing an error message to the diagnostic stream). -/
theorem arg_error_exit_status :
    (main_run (fun _ => 0) (fun _ => 0) (fun _ => none) (fun _ => true)
        ["img.png", "--bogus"]).exitCode = 0 ∧
    (main_run (fun _ => 0) (fun _ => 0) (fun _ => none) (fun _ => true)
        ["img.png", "-c", ""]).exitCode = 0 ∧
    (main_run (fun _ => 0) (fun _ => 0) (fun _ => none) (fun _ => true)
        ["img.png", "-w"]).exitCode = 0 :=
  ⟨rfl, rfl, rfl⟩

end AsciiImage
